import Mathlib

/-!
Shallow embedding of `src/primitives.cpp` (cprocessing): primitive-shape
drawing routines over an immediate-mode graphics backend.  C++ doubles are
modelled as real numbers, the file-scope statics as an explicit `PrimState`
record threaded through the operations, assertion failures and out-of-range
vector accesses as `none`, and the alpha-gated backend rasterization passes
as explicit `Pass` lists in each operation's output.
-/

namespace cprocessing

/-- Modelled from the spec: the ellipse-mode constant `CENTER` is declared in
the header `cprocessing.hpp`, which is not under `src/`; only the identity and
pairwise distinctness of the four mode constants matter here. -/
def CENTER : Nat := 0

/-- Modelled from the spec: the ellipse-mode constant `RADIUS` (see `CENTER`). -/
def RADIUS : Nat := 1

/-- Modelled from the spec: the ellipse-mode constant `CORNER` (see `CENTER`). -/
def CORNER : Nat := 2

/-- Modelled from the spec: the ellipse-mode constant `CORNERS` (see `CENTER`). -/
def CORNERS : Nat := 3

/-- Modelled from the spec: the constant `PI` from the header, the
mathematical constant π used for the sphere's latitudinal half revolution. -/
noncomputable def PI : ℝ := Real.pi

/-- Modelled from the spec: the constant `TWO_PI` from the header, 2·π, the
sphere's longitudinal full revolution. -/
noncomputable def TWO_PI : ℝ := 2 * Real.pi

/-- The `PVector` value type of the header: a 3-component coordinate. -/
@[ext] structure PVector where
  x : ℝ
  y : ℝ
  z : ℝ

/-- An RGBA color as consumed by the drawing routines: four byte channels,
`rgba 3` being the alpha channel (`color.rgba[3]` in the source). -/
structure Color where
  rgba : Fin 4 → Nat

/-- The file-scope mutable statics of `primitives.cpp`: the ellipse drawing
mode, the cached ellipse vertices, the sphere detail `ures`/`vres`, and the
cached sphere vertex and index arrays. -/
structure PrimState where
  ellipseMode : Nat
  ellipseVtx : List PVector
  ures : Int
  vres : Int
  sphereVtx : List PVector
  sphereIdx : List Nat

/-- The state at process start: the statics are zero-initialized, both mesh
caches are empty, and the mode initializer on line 18 is `CENTER`. -/
def initState : PrimState := ⟨CENTER, [], 0, 0, [], []⟩

/-- One alpha-gated rasterization pass emitted to the backend: interior fill
(`GL_FILL` / `GL_POLYGON`) or boundary outline (`GL_LINE` / `GL_LINE_LOOP`). -/
inductive Pass where
  | fill
  | outline
deriving DecidableEq, BEq

/-- The observable output of a `quad` call: the 4-vertex buffer handed to the
backend and the sequence of rasterization passes issued over it. -/
structure QuadOutput where
  vertices : List (ℝ × ℝ)
  passes : List Pass

/-- The `quad` routine (primitives.cpp lines 78–108): builds the 4-vertex
buffer, emits a fill pass when the fill alpha is positive, then an outline
pass when the stroke alpha is positive. -/
def quad (fillColor strokeColor : Color) (x0 y0 x1 y1 x2 y2 x3 y3 : ℝ) :
    QuadOutput :=
  { vertices := [(x0, y0), (x1, y1), (x2, y2), (x3, y3)],
    passes :=
      (if 0 < fillColor.rgba 3 then [Pass.fill] else []) ++
      (if 0 < strokeColor.rgba 3 then [Pass.outline] else []) }

/-- The `ellipseDetail` routine (lines 125–133): clears the ellipse vertex
cache and pushes, for each `i < n`, the point at angle `M_PI * 2 * i / n` on
the circle of radius 1/2 in the z = 0 plane. -/
noncomputable def ellipseDetail (n : Nat) (s : PrimState) : PrimState :=
  { s with
    ellipseVtx :=
      (List.range n).map fun (i : Nat) =>
        ⟨Real.cos (Real.pi * 2 * i / n) / 2, Real.sin (Real.pi * 2 * i / n) / 2, 0⟩ }

/-- The `ellipseMode` routine (lines 137–140): asserts that the mode is one of
the four valid constants (`none` models the fatal assertion failure) and
stores it into the static mode variable. -/
def ellipseMode (mode : Nat) (s : PrimState) : Option PrimState :=
  if mode = CENTER ∨ mode = RADIUS ∨ mode = CORNER ∨ mode = CORNERS then
    some { s with ellipseMode := mode }
  else
    none

/-- The argument adjustment performed by the `switch` at the top of `ellipse`
(lines 150–165): CENTER, RADIUS and CORNERS rewrite x, y, width, height;
CORNER — and any other mode value — falls through with no adjustment. -/
noncomputable def ellipseArgs (mode : Nat) (x y width height : ℝ) : ℝ × ℝ × ℝ × ℝ :=
  if mode = CENTER then (x - width / 2, y - height / 2, width, height)
  else if mode = RADIUS then (x - width, y - height, width * 2, height * 2)
  else if mode = CORNERS then (x, y, width - x, height - y)
  else (x, y, width, height)

/-- The composite modelview update of `ellipse` (lines 170–172),
`glTranslatef(x,y,0); glScalef(width,height,1); glTranslatef(0.5,0.5,0)`,
applied to a mesh point. -/
noncomputable def ellipseTransform (x y width height : ℝ) (p : PVector) : PVector :=
  ⟨x + width * (p.x + 0.5), y + height * (p.y + 0.5), p.z⟩

/-- The observable output of an `ellipse` call: the adjusted transform
arguments, the vertex count handed to `glDrawArrays`, and the passes. -/
structure EllipseOutput where
  x : ℝ
  y : ℝ
  width : ℝ
  height : ℝ
  count : Nat
  passes : List Pass

/-- The `ellipse` routine (lines 147–191): adjusts the arguments per the
current mode, binds `ellipseVtx[0]` — an out-of-range access, modelled as
`none`, when the cache is empty — and emits the alpha-gated fill and
line-loop passes under the composite transform.  The state is only read. -/
noncomputable def ellipse (fillColor strokeColor : Color) (x y width height : ℝ)
    (s : PrimState) : Option (EllipseOutput × PrimState) :=
  let a := ellipseArgs s.ellipseMode x y width height
  match s.ellipseVtx with
  | [] => none
  | _ :: _ =>
      some ({ x := a.1, y := a.2.1, width := a.2.2.1, height := a.2.2.2,
              count := s.ellipseVtx.length,
              passes :=
                (if 0 < fillColor.rgba 3 then [Pass.fill] else []) ++
                (if 0 < strokeColor.rgba 3 then [Pass.outline] else []) }, s)

/-- The `sphereDetail` routine (lines 200–228): stores `ures`/`vres`, rebuilds
the vertex grid (outer loop over `itheta < vr`, inner over `iphi < ur`) and
the quad-strip index array (outer loop over `icol < vr - 1`, inner over
`irow < ur`, two indices pushed per iteration).  The int-counted loops run
their bodies for the nonnegative iteration counts, hence `Int.toNat`. -/
noncomputable def sphereDetail (ur vr : Int) (s : PrimState) : PrimState :=
  { s with
    ures := ur
    vres := vr
    sphereVtx :=
      (List.range vr.toNat).flatMap fun (itheta : Nat) =>
        (List.range ur.toNat).map fun (iphi : Nat) =>
          ⟨Real.sin (PI / ((ur : ℝ) - 1) * iphi) * Real.cos (TWO_PI / ((vr : ℝ) - 1) * itheta),
           Real.cos (PI / ((ur : ℝ) - 1) * iphi),
           Real.sin (PI / ((ur : ℝ) - 1) * iphi) * Real.sin (TWO_PI / ((vr : ℝ) - 1) * itheta)⟩
    sphereIdx :=
      (List.range (vr - 1).toNat).flatMap fun (icol : Nat) =>
        (List.range ur.toNat).flatMap fun (irow : Nat) =>
          [icol * ur.toNat + irow, (icol + 1) * ur.toNat + irow] }

/-- The divisors of the two floating-point divisions executed inside
`sphereDetail`'s loops, in execution order: each outer iteration divides
`TWO_PI` by `vr - 1` (theta step, line 207) and each inner iteration divides
`PI` by `ur - 1` (phi step, line 211). -/
def sphereDetailDivisors (ur vr : Int) : List Int :=
  (List.range vr.toNat).flatMap fun (_ : Nat) =>
    (vr - 1) :: ((List.range ur.toNat).map fun (_ : Nat) => ur - 1)

/-- The observable output of a `sphere` call: the uniform scale factor passed
to `glScaled`, the element count passed to `glDrawElements`, and the passes. -/
structure SphereOutput where
  scale : ℝ
  elemCount : Int
  passes : List Pass

/-- The `sphere` routine (lines 233–262): scales by the radius, binds
`sphereVtx[0]` as both position and normal source — an out-of-range access,
modelled as `none`, when the vertex cache is empty — and emits the
alpha-gated fill and line passes, each reading `sphereIdx[0]` (out of range,
`none`, when a pass runs on an empty index array).  The state is only read,
never written. -/
def sphere (radius : ℝ) (fillColor strokeColor : Color) (s : PrimState) :
    Option (SphereOutput × PrimState) :=
  match s.sphereVtx with
  | [] => none
  | _ :: _ =>
      if (0 < fillColor.rgba 3 ∨ 0 < strokeColor.rgba 3) ∧ s.sphereIdx = [] then
        none
      else
        some ({ scale := radius,
                elemCount := s.ures * (s.vres - 1) * 2,
                passes :=
                  (if 0 < fillColor.rgba 3 then [Pass.fill] else []) ++
                  (if 0 < strokeColor.rgba 3 then [Pass.outline] else []) }, s)

/-- An all-channels-255 color: fully opaque fill or stroke. -/
def white : Color := ⟨fun _ => 255⟩

/-- An all-channels-0 color: alpha 0, suppressing the corresponding pass. -/
def transparent : Color := ⟨fun _ => 0⟩

/-- A concrete state with mode `CENTER` and a one-vertex ellipse cache. -/
noncomputable def ellipseReadyState : PrimState := ⟨CENTER, [⟨1 / 2, 0, 0⟩], 0, 0, [], []⟩

/-- A concrete state with mode `CORNER` and a one-vertex ellipse cache. -/
noncomputable def ellipseCornerState : PrimState := ⟨CORNER, [⟨1 / 2, 0, 0⟩], 0, 0, [], []⟩

/-- A concrete state with detail 2 × 2 and populated sphere caches. -/
noncomputable def sphereReadyState : PrimState :=
  ⟨CENTER, [], 2, 2, [⟨0, 1, 0⟩], [0, 2, 1, 3]⟩

/-- Length of a flat-mapped range when every block has the same length. -/
theorem length_flatMap_range {α : Type} (c : Nat) (g : Nat → List α)
    (hg : ∀ i, (g i).length = c) :
    ∀ a : Nat, ((List.range a).flatMap g).length = a * c := by
  intro a
  induction a with
  | zero => simp
  | succ a ih =>
      rw [List.range_succ, List.flatMap_append, List.length_append, ih]
      simp [hg, Nat.succ_mul]

/-- Length of the doubly indexed grid produced by a range flat-map of maps. -/
theorem length_flatMap_range_map {α : Type} (b : Nat) (f : Nat → Nat → α)
    (a : Nat) :
    ((List.range a).flatMap fun i => (List.range b).map (f i)).length = a * b :=
  length_flatMap_range b _ (fun i => by simp) a

/-- Element lookup in the doubly indexed grid: block `it`, offset `ip`. -/
theorem getElem_flatMap_range_map {α : Type} (b : Nat) (f : Nat → Nat → α) :
    ∀ a it ip : Nat, it < a → ip < b →
      ((List.range a).flatMap fun i => (List.range b).map (f i))[it * b + ip]? =
        some (f it ip) := by
  intro a
  induction a with
  | zero => intro it ip hit _; exact absurd hit (Nat.not_lt_zero it)
  | succ a ih =>
      intro it ip hit hip
      rw [List.range_succ, List.flatMap_append]
      rcases Nat.lt_or_ge it a with h | h
      · have hlen : it * b + ip <
            ((List.range a).flatMap fun i => (List.range b).map (f i)).length := by
          rw [length_flatMap_range_map]
          calc it * b + ip < it * b + b := by omega
            _ = (it + 1) * b := by ring
            _ ≤ a * b := Nat.mul_le_mul_right b h
        rw [List.getElem?_append, if_pos hlen]
        exact ih it ip h hip
      · have hia : it = a := by omega
        subst hia
        have hlen : ((List.range it).flatMap fun i => (List.range b).map (f i)).length =
            it * b := length_flatMap_range_map b f it
        rw [List.getElem?_append_right (by rw [hlen]; omega)]
        rw [hlen]
        have hsub : it * b + ip - it * b = ip := by omega
        rw [hsub]
        simp [List.getElem?_map, List.getElem?_range hip]

/-- Unfolding of a successful `ellipse` call on a nonempty cache. -/
theorem ellipse_eq_some (fillColor strokeColor : Color) (x y width height : ℝ)
    (s : PrimState) (hv : s.ellipseVtx ≠ []) :
    ellipse fillColor strokeColor x y width height s =
      some ({ x := (ellipseArgs s.ellipseMode x y width height).1,
              y := (ellipseArgs s.ellipseMode x y width height).2.1,
              width := (ellipseArgs s.ellipseMode x y width height).2.2.1,
              height := (ellipseArgs s.ellipseMode x y width height).2.2.2,
              count := s.ellipseVtx.length,
              passes :=
                (if 0 < fillColor.rgba 3 then [Pass.fill] else []) ++
                (if 0 < strokeColor.rgba 3 then [Pass.outline] else []) }, s) := by
  rcases h : s.ellipseVtx with _ | ⟨p, rest⟩
  · exact absurd h hv
  · simp only [ellipse, h]

/-- The vertex cache built by `sphereDetail` has `vres · ures` entries. -/
theorem sphereVtx_length (ur vr : Int) (s : PrimState) :
    (sphereDetail ur vr s).sphereVtx.length = vr.toNat * ur.toNat := by
  simp only [sphereDetail]
  exact length_flatMap_range_map _ _ _

/-- The index cache built by `sphereDetail` has `(vres − 1) · ures · 2` entries. -/
theorem sphereIdx_length (ur vr : Int) (s : PrimState) :
    (sphereDetail ur vr s).sphereIdx.length = (vr - 1).toNat * (ur.toNat * 2) := by
  simp only [sphereDetail]
  refine length_flatMap_range (ur.toNat * 2) _ (fun icol => ?_) _
  refine length_flatMap_range 2 _ (fun irow => ?_) _
  rfl

/-- Every index pushed by `sphereDetail` addresses one of the `ures · vres`
grid vertices. -/
theorem sphereIdx_mem_lt (ur vr : Int) (s : PrimState) (hv : 2 ≤ vr) :
    ∀ i ∈ (sphereDetail ur vr s).sphereIdx, i < ur.toNat * vr.toNat := by
  intro i hi
  simp only [sphereDetail, List.mem_flatMap, List.mem_range, List.mem_cons,
    List.mem_singleton, List.not_mem_nil, or_false] at hi
  obtain ⟨icol, hicol, irow, hirow, hcase⟩ := hi
  have hb : (icol + 1) * ur.toNat + irow < ur.toNat * vr.toNat := by
    have h1 : icol + 1 ≤ vr.toNat - 1 := by omega
    have h2 : (icol + 1) * ur.toNat ≤ (vr.toNat - 1) * ur.toNat :=
      Nat.mul_le_mul_right _ h1
    have h3 : (vr.toNat - 1) * ur.toNat + ur.toNat = vr.toNat * ur.toNat := by
      have h4 : vr.toNat - 1 + 1 = vr.toNat := by omega
      calc (vr.toNat - 1) * ur.toNat + ur.toNat
          = (vr.toNat - 1 + 1) * ur.toNat := by ring
        _ = vr.toNat * ur.toNat := by rw [h4]
    calc (icol + 1) * ur.toNat + irow < (icol + 1) * ur.toNat + ur.toNat := by omega
      _ ≤ (vr.toNat - 1) * ur.toNat + ur.toNat := by omega
      _ = vr.toNat * ur.toNat := h3
      _ = ur.toNat * vr.toNat := Nat.mul_comm _ _
  have hstep : icol * ur.toNat ≤ (icol + 1) * ur.toNat :=
    Nat.mul_le_mul_right _ (Nat.le_succ icol)
  rcases hcase with rfl | rfl
  · omega
  · exact hb

/-- Inversion of a successful `sphere` call: the output carries the radius as
scale factor and the element count `ures · (vres − 1) · 2`, and the state is
returned unchanged. -/
theorem sphere_inv (radius : ℝ) (fc sc : Color) (s : PrimState)
    (o : SphereOutput) (t : PrimState) (h : sphere radius fc sc s = some (o, t)) :
    o.scale = radius ∧ o.elemCount = s.ures * (s.vres - 1) * 2 ∧
    o.passes = (if 0 < fc.rgba 3 then [Pass.fill] else []) ++
      (if 0 < sc.rgba 3 then [Pass.outline] else []) ∧ t = s := by
  rcases hvtx : s.sphereVtx with _ | ⟨v, rest⟩
  · simp [sphere, hvtx] at h
  · by_cases hc : (0 < fc.rgba 3 ∨ 0 < sc.rgba 3) ∧ s.sphereIdx = []
    · simp [sphere, hvtx, hc] at h
    · simp only [sphere, hvtx, if_neg hc, Option.some.injEq, Prod.mk.injEq] at h
      obtain ⟨rfl, rfl⟩ := h
      exact ⟨rfl, rfl, rfl, rfl⟩

/-- Claim C1: for every n ≥ 3, `ellipseDetail n` replaces the ellipse mesh
cache with exactly n vertices, where vertex i lies at angle 2π·i/n, at
distance 0.5 from the origin, with z = 0, and the resulting cache depends
only on n (full regeneration, never a partial update). -/
theorem C1_ellipseDetail_mesh (n : Nat) (s : PrimState) (hn : 3 ≤ n) :
    (ellipseDetail n s).ellipseVtx.length = n ∧
    (∀ i, i < n →
      (ellipseDetail n s).ellipseVtx[i]? =
        some ⟨Real.cos (2 * Real.pi * i / n) / 2,
              Real.sin (2 * Real.pi * i / n) / 2, 0⟩) ∧
    (∀ v ∈ (ellipseDetail n s).ellipseVtx,
      v.x ^ 2 + v.y ^ 2 + v.z ^ 2 = (1 / 2 : ℝ) ^ 2 ∧ v.z = 0) ∧
    (∀ t : PrimState, (ellipseDetail n t).ellipseVtx = (ellipseDetail n s).ellipseVtx) := by
  refine ⟨by simp only [ellipseDetail, List.length_map, List.length_range], ?_, ?_,
    fun t => rfl⟩
  · intro i hi
    have ha : Real.pi * 2 * (i : ℝ) / (n : ℝ) = 2 * Real.pi * i / n := by ring
    simp only [ellipseDetail, List.getElem?_map, List.getElem?_range hi,
      Option.map_some']
    rw [ha]
  · intro v hv
    simp only [ellipseDetail, List.mem_map, List.mem_range] at hv
    obtain ⟨i, hi, rfl⟩ := hv
    refine ⟨?_, rfl⟩
    show (Real.cos (Real.pi * 2 * i / n) / 2) ^ 2 +
        (Real.sin (Real.pi * 2 * i / n) / 2) ^ 2 + (0 : ℝ) ^ 2 = (1 / 2 : ℝ) ^ 2
    linear_combination (1 / 4 : ℝ) * Real.sin_sq_add_cos_sq (Real.pi * 2 * i / n)

/-- Witness for C1 at n = 3: the hypothesis holds and the rebuilt cache has
exactly 3 vertices. -/
theorem C1_witness :
    3 ≤ 3 ∧ (ellipseDetail 3 initState).ellipseVtx.length = 3 :=
  ⟨by norm_num, (C1_ellipseDetail_mesh 3 initState (by norm_num)).1⟩

/-- Claim C2: for ures ≥ 2 and vres ≥ 2, `sphereDetail` produces ures·vres
vertices, each at unit distance from the origin, given by y = cos φ,
x = sin φ · cos θ, z = sin φ · sin θ with θ stepping a full revolution over
vres−1 steps and φ a half revolution over ures−1 steps; it produces an index
sequence of length ures·(vres−1)·2 with every index in [0, ures·vres); and
the arrays are a pure function of (ures, vres), so an immediately repeated
identical call yields identical arrays. -/
theorem C2_sphereDetail_mesh (ur vr : Int) (s : PrimState)
    (hu : 2 ≤ ur) (hv : 2 ≤ vr) :
    ((sphereDetail ur vr s).sphereVtx.length = ur.toNat * vr.toNat) ∧
    (∀ v ∈ (sphereDetail ur vr s).sphereVtx, v.x ^ 2 + v.y ^ 2 + v.z ^ 2 = 1) ∧
    (∀ it ip : Nat, it < vr.toNat → ip < ur.toNat →
      (sphereDetail ur vr s).sphereVtx[it * ur.toNat + ip]? =
        some ⟨Real.sin (Real.pi / ((ur : ℝ) - 1) * ip) *
                Real.cos (2 * Real.pi / ((vr : ℝ) - 1) * it),
              Real.cos (Real.pi / ((ur : ℝ) - 1) * ip),
              Real.sin (Real.pi / ((ur : ℝ) - 1) * ip) *
                Real.sin (2 * Real.pi / ((vr : ℝ) - 1) * it)⟩) ∧
    ((sphereDetail ur vr s).sphereIdx.length = ur.toNat * (vr.toNat - 1) * 2) ∧
    (∀ i ∈ (sphereDetail ur vr s).sphereIdx, i < ur.toNat * vr.toNat) ∧
    (∀ t : PrimState,
      (sphereDetail ur vr t).sphereVtx = (sphereDetail ur vr s).sphereVtx ∧
      (sphereDetail ur vr t).sphereIdx = (sphereDetail ur vr s).sphereIdx) := by
  refine ⟨?_, ?_, ?_, ?_, sphereIdx_mem_lt ur vr s hv, fun t => ⟨rfl, rfl⟩⟩
  · rw [sphereVtx_length]
    exact Nat.mul_comm _ _
  · intro v hv'
    simp only [sphereDetail, List.mem_flatMap, List.mem_map, List.mem_range] at hv'
    obtain ⟨it, hit, ip, hip, rfl⟩ := hv'
    show (Real.sin (PI / ((ur : ℝ) - 1) * ip) * Real.cos (TWO_PI / ((vr : ℝ) - 1) * it)) ^ 2 +
        (Real.cos (PI / ((ur : ℝ) - 1) * ip)) ^ 2 +
        (Real.sin (PI / ((ur : ℝ) - 1) * ip) * Real.sin (TWO_PI / ((vr : ℝ) - 1) * it)) ^ 2 = 1
    linear_combination
      (Real.sin (PI / ((ur : ℝ) - 1) * ip)) ^ 2 *
        Real.sin_sq_add_cos_sq (TWO_PI / ((vr : ℝ) - 1) * it) +
      Real.sin_sq_add_cos_sq (PI / ((ur : ℝ) - 1) * ip)
  · intro it ip hit hip
    simp only [sphereDetail]
    exact getElem_flatMap_range_map ur.toNat _ vr.toNat it ip hit hip
  · rw [sphereIdx_length]
    have hvv : (vr - 1).toNat = vr.toNat - 1 := by omega
    rw [hvv]; ring

/-- Witness for C2 at ures = vres = 2: the hypotheses hold and the vertex
cache has 2 · 2 entries. -/
theorem C2_witness :
    (2 : Int) ≤ 2 ∧
    (sphereDetail 2 2 initState).sphereVtx.length = (2 : Int).toNat * (2 : Int).toNat :=
  ⟨by norm_num, (C2_sphereDetail_mesh 2 2 initState (by norm_num) (by norm_num)).1⟩

/-- The CENTER branch of the argument switch, by computation. -/
theorem ellipseArgs_CENTER (x y width height : ℝ) :
    ellipseArgs CENTER x y width height =
      (x - width / 2, y - height / 2, width, height) := rfl

/-- The RADIUS branch of the argument switch, by computation. -/
theorem ellipseArgs_RADIUS (x y width height : ℝ) :
    ellipseArgs RADIUS x y width height =
      (x - width, y - height, width * 2, height * 2) := rfl

/-- The CORNER branch of the argument switch: fall-through, no adjustment. -/
theorem ellipseArgs_CORNER (x y width height : ℝ) :
    ellipseArgs CORNER x y width height = (x, y, width, height) := rfl

/-- The CORNERS branch of the argument switch, by computation. -/
theorem ellipseArgs_CORNERS (x y width height : ℝ) :
    ellipseArgs CORNERS x y width height = (x, y, width - x, height - y) := rfl

/-- Claim C3: with a nonempty ellipse cache, in mode CENTER `ellipse`
applies a transform placing the transformed unit mesh's bounding box center
at (x, y) with the given width and height; in mode RADIUS the center is at
(x, y) and the full axes are 2·width and 2·height; in mode CORNERS the
transformed mesh is bounded by the opposite corners (x, y) and
(width, height). -/
theorem C3_ellipse_mode_transforms (fc sc : Color) (x y width height : ℝ)
    (s : PrimState) (hv : s.ellipseVtx ≠ []) :
    (s.ellipseMode = CENTER →
      ∃ o : EllipseOutput, ellipse fc sc x y width height s = some (o, s) ∧
        (∀ p, ellipseTransform o.x o.y o.width o.height p =
          ⟨x + width * p.x, y + height * p.y, p.z⟩) ∧
        ellipseTransform o.x o.y o.width o.height ⟨0, 0, 0⟩ = ⟨x, y, 0⟩) ∧
    (s.ellipseMode = RADIUS →
      ∃ o : EllipseOutput, ellipse fc sc x y width height s = some (o, s) ∧
        (∀ p, ellipseTransform o.x o.y o.width o.height p =
          ⟨x + 2 * width * p.x, y + 2 * height * p.y, p.z⟩) ∧
        ellipseTransform o.x o.y o.width o.height ⟨0, 0, 0⟩ = ⟨x, y, 0⟩) ∧
    (s.ellipseMode = CORNERS →
      ∃ o : EllipseOutput, ellipse fc sc x y width height s = some (o, s) ∧
        ellipseTransform o.x o.y o.width o.height ⟨-(1 / 2), -(1 / 2), 0⟩ = ⟨x, y, 0⟩ ∧
        ellipseTransform o.x o.y o.width o.height ⟨1 / 2, 1 / 2, 0⟩ =
          ⟨width, height, 0⟩) := by
  refine ⟨fun hm => ?_, fun hm => ?_, fun hm => ?_⟩
  · refine ⟨_, ellipse_eq_some fc sc x y width height s hv, ?_, ?_⟩
    · intro p
      rw [hm]
      ext <;> simp only [ellipseArgs_CENTER, ellipseTransform] <;> ring
    · rw [hm]
      ext <;> simp only [ellipseArgs_CENTER, ellipseTransform] <;> ring
  · refine ⟨_, ellipse_eq_some fc sc x y width height s hv, ?_, ?_⟩
    · intro p
      rw [hm]
      ext <;> simp only [ellipseArgs_RADIUS, ellipseTransform] <;> ring
    · rw [hm]
      ext <;> simp only [ellipseArgs_RADIUS, ellipseTransform] <;> ring
  · refine ⟨_, ellipse_eq_some fc sc x y width height s hv, ?_, ?_⟩
    · rw [hm]
      ext <;> simp only [ellipseArgs_CORNERS, ellipseTransform] <;> ring
    · rw [hm]
      ext <;> simp only [ellipseArgs_CORNERS, ellipseTransform] <;> ring

/-- Witness for C3: mode CENTER, a one-vertex cache, and the call
`ellipse(10, 10, 4, 4)`; the transformed mesh is centered at (10, 10) with
axes 4 and 4. -/
theorem C3_witness :
    ellipseReadyState.ellipseVtx ≠ [] ∧
    (∃ o : EllipseOutput,
      ellipse white white 10 10 4 4 ellipseReadyState = some (o, ellipseReadyState) ∧
      (∀ p, ellipseTransform o.x o.y o.width o.height p =
        ⟨10 + 4 * p.x, 10 + 4 * p.y, p.z⟩) ∧
      ellipseTransform o.x o.y o.width o.height ⟨0, 0, 0⟩ = ⟨10, 10, 0⟩) :=
  ⟨by simp [ellipseReadyState],
   (C3_ellipse_mode_transforms white white 10 10 4 4 ellipseReadyState
      (by simp [ellipseReadyState])).1 rfl⟩

/-- Claim C4: with mode CORNER active, `ellipse` applies no adjustment to its
four arguments, and the composite transform translate(x,y) · scale(w,h) ·
translate(0.5,0.5) places the transformed unit mesh's bounding box with
top-left corner at (x, y) and the given width and height. -/
theorem C4_ellipse_corner_transform (fc sc : Color) (x y width height : ℝ)
    (s : PrimState) (hm : s.ellipseMode = CORNER) (hv : s.ellipseVtx ≠ []) :
    ellipseArgs CORNER x y width height = (x, y, width, height) ∧
    ∃ o : EllipseOutput, ellipse fc sc x y width height s = some (o, s) ∧
      o.x = x ∧ o.y = y ∧ o.width = width ∧ o.height = height ∧
      (∀ p, ellipseTransform o.x o.y o.width o.height p =
        ⟨x + width * (p.x + 1 / 2), y + height * (p.y + 1 / 2), p.z⟩) ∧
      ellipseTransform o.x o.y o.width o.height ⟨-(1 / 2), -(1 / 2), 0⟩ = ⟨x, y, 0⟩ ∧
      ellipseTransform o.x o.y o.width o.height ⟨1 / 2, 1 / 2, 0⟩ =
        ⟨x + width, y + height, 0⟩ := by
  refine ⟨ellipseArgs_CORNER x y width height, _,
    ellipse_eq_some fc sc x y width height s hv, ?_⟩
  rw [hm, ellipseArgs_CORNER]
  refine ⟨rfl, rfl, rfl, rfl, fun p => ?_, ?_, ?_⟩
  · ext <;> simp only [ellipseTransform] <;> ring
  · ext <;> simp only [ellipseTransform] <;> ring
  · ext <;> simp only [ellipseTransform] <;> ring

/-- Witness for C4: mode CORNER, a one-vertex cache, and the call
`ellipse(0, 0, 10, 6)`; the arguments pass through unadjusted. -/
theorem C4_witness :
    ellipseCornerState.ellipseMode = CORNER ∧ ellipseCornerState.ellipseVtx ≠ [] ∧
    ellipseArgs CORNER 0 0 10 6 = (0, 0, 10, 6) :=
  ⟨rfl, by simp [ellipseCornerState],
   (C4_ellipse_corner_transform white white 0 0 10 6 ellipseCornerState rfl
      (by simp [ellipseCornerState])).1⟩

/-- Claim C5: `ellipseMode` fails (assertion, modelled as `none`) exactly when
the mode is not one of CENTER, RADIUS, CORNER, CORNERS; for a valid mode it
sets the process-wide mode that every subsequent `ellipse` call consumes
until the next `ellipseMode` call (detail calls preserve it, and a
subsequent `ellipse` adjusts its arguments with exactly the stored mode); it
never silently defaults on an invalid mode. -/
theorem C5_ellipseMode_validation (mode : Nat) (s : PrimState) :
    (ellipseMode mode s = none ↔
      ¬(mode = CENTER ∨ mode = RADIUS ∨ mode = CORNER ∨ mode = CORNERS)) ∧
    (∀ s', ellipseMode mode s = some s' →
      s'.ellipseMode = mode ∧
      (∀ n, (ellipseDetail n s').ellipseMode = mode) ∧
      (∀ ur vr, (sphereDetail ur vr s').ellipseMode = mode) ∧
      (∀ fc sc x y w h (o : EllipseOutput) t,
        ellipse fc sc x y w h s' = some (o, t) →
          (o.x, o.y, o.width, o.height) = ellipseArgs mode x y w h ∧
          t.ellipseMode = mode)) := by
  constructor
  · by_cases h : mode = CENTER ∨ mode = RADIUS ∨ mode = CORNER ∨ mode = CORNERS
    · simp [ellipseMode, h]
    · simp [ellipseMode, h]
  · intro s' hs'
    rw [ellipseMode] at hs'
    by_cases h : mode = CENTER ∨ mode = RADIUS ∨ mode = CORNER ∨ mode = CORNERS
    · rw [if_pos h, Option.some.injEq] at hs'
      subst hs'
      refine ⟨rfl, fun n => rfl, fun ur vr => rfl, ?_⟩
      intro fc sc x y w h o t ho
      rcases hvtx : s.ellipseVtx with _ | ⟨p, rest⟩
      · simp [ellipse, hvtx] at ho
      · rw [ellipse_eq_some fc sc x y w h _ (by simp [hvtx]),
          Option.some.injEq, Prod.mk.injEq] at ho
        obtain ⟨rfl, rfl⟩ := ho
        exact ⟨rfl, rfl⟩
    · rw [if_neg h] at hs'
      exact absurd hs' (by simp)

/-- Claim C7: with stroke alpha 0 and fill alpha 255, `quad` emits exactly
one fill pass and zero outline passes; in general an alpha of 0 in the fill
or stroke color suppresses the corresponding pass entirely. -/
theorem C7_quad_alpha_passes (fc sc : Color) (x0 y0 x1 y1 x2 y2 x3 y3 : ℝ)
    (hs : sc.rgba 3 = 0) (hf : fc.rgba 3 = 255) :
    (quad fc sc x0 y0 x1 y1 x2 y2 x3 y3).passes = [Pass.fill] ∧
    (quad fc sc x0 y0 x1 y1 x2 y2 x3 y3).passes.count Pass.fill = 1 ∧
    (quad fc sc x0 y0 x1 y1 x2 y2 x3 y3).passes.count Pass.outline = 0 ∧
    (∀ fc' sc' : Color,
      (fc'.rgba 3 = 0 →
        Pass.fill ∉ (quad fc' sc' x0 y0 x1 y1 x2 y2 x3 y3).passes) ∧
      (sc'.rgba 3 = 0 →
        Pass.outline ∉ (quad fc' sc' x0 y0 x1 y1 x2 y2 x3 y3).passes)) := by
  have hp : (quad fc sc x0 y0 x1 y1 x2 y2 x3 y3).passes = [Pass.fill] := by
    simp [quad, hs, hf]
  refine ⟨hp, by rw [hp]; decide, by rw [hp]; decide, ?_⟩
  intro fc' sc'
  constructor
  · intro h0
    have hq : (quad fc' sc' x0 y0 x1 y1 x2 y2 x3 y3).passes =
        if 0 < sc'.rgba 3 then [Pass.outline] else [] := by
      simp [quad, h0]
    rw [hq]
    split <;> simp
  · intro h0
    have hq : (quad fc' sc' x0 y0 x1 y1 x2 y2 x3 y3).passes =
        if 0 < fc'.rgba 3 then [Pass.fill] else [] := by
      simp [quad, h0]
    rw [hq]
    split <;> simp

/-- Witness for C7: an all-zero stroke color and an all-255 fill color give a
single fill pass. -/
theorem C7_witness :
    transparent.rgba 3 = 0 ∧ white.rgba 3 = 255 ∧
    (quad white transparent 0 0 1 0 1 1 0 1).passes = [Pass.fill] :=
  ⟨rfl, rfl, (C7_quad_alpha_passes white transparent 0 0 1 0 1 1 0 1 rfl rfl).1⟩

/-- Claim C6 counterexample: after the configured call `sphereDetail 2 1`,
the sphere vertex cache is nonempty, yet `sphere` with an opaque fill color
still reaches the out-of-range access (it reads `sphereIdx[0]` of the empty
index array), so the access is not confined to the empty-vertex-cache
state. -/
theorem C6_counterexample :
    (sphereDetail 2 1 initState).sphereVtx ≠ [] ∧
    sphere 1 white transparent (sphereDetail 2 1 initState) = none := by
  constructor
  · apply List.ne_nil_of_length_pos
    rw [sphereVtx_length]
    norm_num
  · rfl

/-- Claim C6 (amended): `ellipse` reaches the out-of-range element-0 access
of an empty sequence exactly when the ellipse cache is empty; `sphere`
reaches it exactly when the sphere vertex cache is empty, or when a fill or
stroke pass is emitted while the sphere index cache is empty; the initial
(unconfigured) state has both caches empty, so any draw call there reaches
the access. -/
theorem C6_empty_cache_access (fc sc : Color) (radius x y width height : ℝ)
    (s : PrimState) :
    initState.ellipseVtx = [] ∧ initState.sphereVtx = [] ∧
    (ellipse fc sc x y width height s = none ↔ s.ellipseVtx = []) ∧
    (sphere radius fc sc s = none ↔
      (s.sphereVtx = [] ∨ ((0 < fc.rgba 3 ∨ 0 < sc.rgba 3) ∧ s.sphereIdx = []))) := by
  refine ⟨rfl, rfl, ?_, ?_⟩
  · rcases h : s.ellipseVtx with _ | ⟨p, rest⟩
    · simp [ellipse, h]
    · simp [ellipse, h]
  · rcases h : s.sphereVtx with _ | ⟨v, rest⟩
    · simp [sphere, h]
    · by_cases hc : (0 < fc.rgba 3 ∨ 0 < sc.rgba 3) ∧ s.sphereIdx = []
      · simp [sphere, h, hc]
      · simp [sphere, h, hc]

/-- Claim C8: for ures ≥ 2 and vres ≥ 2 none of the divisions inside
`sphereDetail` divides by zero (the divisors vres − 1 and ures − 1 are
nonzero); `sphereDetail` performs no validation (it stores any ures/vres
unchanged), and for inputs with ures = 1 or vres = 1 the division-by-zero
branch is reached. -/
theorem C8_sphereDetail_division :
    (∀ ur vr : Int, 2 ≤ ur → 2 ≤ vr → (0 : Int) ∉ sphereDetailDivisors ur vr) ∧
    ((0 : Int) ∈ sphereDetailDivisors 1 2) ∧
    ((0 : Int) ∈ sphereDetailDivisors 30 1) ∧
    (∀ (ur vr : Int) (s : PrimState),
      (sphereDetail ur vr s).ures = ur ∧ (sphereDetail ur vr s).vres = vr) := by
  refine ⟨?_, by decide, by decide, fun ur vr s => ⟨rfl, rfl⟩⟩
  intro ur vr hu hv hmem
  simp only [sphereDetailDivisors, List.mem_flatMap, List.mem_range, List.mem_cons,
    List.mem_map] at hmem
  obtain ⟨a, ha, hcase⟩ := hmem
  rcases hcase with h0 | ⟨b, hb, h0⟩ <;> omega

/-- Claim C9: consecutive `sphere` calls each issue their own radius as the
uniform scale factor against the very same state: neither call modifies the
sphere vertex array, the sphere index array, or the stored ures/vres detail
state, so a radius-only change never regenerates the mesh. -/
theorem C9_sphere_radius_only (r1 r2 : ℝ) (fc sc : Color) (s : PrimState)
    (o1 : SphereOutput) (s1 : PrimState)
    (h1 : sphere r1 fc sc s = some (o1, s1)) :
    o1.scale = r1 ∧ s1 = s ∧
    s1.sphereVtx = s.sphereVtx ∧ s1.sphereIdx = s.sphereIdx ∧
    s1.ures = s.ures ∧ s1.vres = s.vres ∧
    sphere r2 fc sc s1 =
      some ({ scale := r2, elemCount := o1.elemCount, passes := o1.passes }, s1) := by
  obtain ⟨hscale, hcount, hpasses, hstate⟩ := sphere_inv r1 fc sc s o1 s1 h1
  subst hstate
  refine ⟨hscale, rfl, rfl, rfl, rfl, rfl, ?_⟩
  rcases hvtx : s1.sphereVtx with _ | ⟨v, rest⟩
  · simp [sphere, hvtx] at h1
  · by_cases hc : (0 < fc.rgba 3 ∨ 0 < sc.rgba 3) ∧ s1.sphereIdx = []
    · simp [sphere, hvtx, hc] at h1
    · simp only [sphere, hvtx, if_neg hc]
      rw [hcount, hpasses]

/-- Witness for C9: a concrete configured state, radii 2 then 3; the first
call succeeds, and the second issues scale 3 against the unchanged state. -/
theorem C9_witness :
    sphere 2 white white sphereReadyState =
      some ({ scale := 2, elemCount := 4, passes := [Pass.fill, Pass.outline] },
        sphereReadyState) ∧
    sphere 3 white white sphereReadyState =
      some ({ scale := 3, elemCount := 4, passes := [Pass.fill, Pass.outline] },
        sphereReadyState) :=
  ⟨rfl,
   (C9_sphere_radius_only 2 3 white white sphereReadyState
      ⟨2, 4, [Pass.fill, Pass.outline]⟩ sphereReadyState rfl).2.2.2.2.2.2⟩

/-- Claim C10: after `sphereDetail u v` with u, v ≥ 2, the stored state
satisfies length(sphereVtx) = ures·vres and the element count
ures·(vres−1)·2 that `sphere` passes to the backend equals the index array's
length, and every stored index refers to an existing vertex. -/
theorem C10_sphere_draw_invariant (ur vr : Int) (s : PrimState)
    (hu : 2 ≤ ur) (hv : 2 ≤ vr) :
    ((sphereDetail ur vr s).sphereVtx.length =
      (sphereDetail ur vr s).ures.toNat * (sphereDetail ur vr s).vres.toNat) ∧
    ((sphereDetail ur vr s).ures * ((sphereDetail ur vr s).vres - 1) * 2 =
      ((sphereDetail ur vr s).sphereIdx.length : Int)) ∧
    (∀ (radius : ℝ) (fc sc : Color) (o : SphereOutput) (t : PrimState),
      sphere radius fc sc (sphereDetail ur vr s) = some (o, t) →
        o.elemCount = ((sphereDetail ur vr s).sphereIdx.length : Int)) ∧
    (∀ i ∈ (sphereDetail ur vr s).sphereIdx,
      i < (sphereDetail ur vr s).sphereVtx.length) := by
  have hlen : ((sphereDetail ur vr s).ures * ((sphereDetail ur vr s).vres - 1) * 2 =
      ((sphereDetail ur vr s).sphereIdx.length : Int)) := by
    rw [sphereIdx_length]
    have h2 : (((vr - 1).toNat : Int)) = vr - 1 := by omega
    have h3 : ((ur.toNat : Int)) = ur := by omega
    show ur * (vr - 1) * 2 = (((vr - 1).toNat * (ur.toNat * 2) : Nat) : Int)
    push_cast [h2, h3]
    ring
  refine ⟨?_, hlen, ?_, ?_⟩
  · rw [sphereVtx_length]
    exact Nat.mul_comm _ _
  · intro radius fc sc o t ho
    obtain ⟨-, hcount, -, -⟩ := sphere_inv radius fc sc _ o t ho
    rw [hcount]
    exact hlen
  · intro i hi
    rw [sphereVtx_length, Nat.mul_comm]
    exact sphereIdx_mem_lt ur vr s hv i hi

/-- Witness for C10 at ures = vres = 2: the hypotheses hold and the element
count equals the index array length. -/
theorem C10_witness :
    (2 : Int) ≤ 2 ∧
    (sphereDetail 2 2 initState).ures * ((sphereDetail 2 2 initState).vres - 1) * 2 =
      ((sphereDetail 2 2 initState).sphereIdx.length : Int) :=
  ⟨by norm_num,
   (C10_sphere_draw_invariant 2 2 initState (by norm_num) (by norm_num)).2.1⟩

end cprocessing
